import Mathlib

/-!
Verification of the diagnostic aggregation and processing pipeline of the
GoLint repository: the task-selection resolver (pkg/lint/lintersdb),
the configuration validator, the orchestrator (Runner), and the built-in
pipeline stages (autogenerated_exclude, skip_dirs).

Definitions are shallow embeddings of the Go source.  External collaborators
(the linter registry `Manager`, regular-expression matching, the file system
and path absolutization) are abstracted as parameters, following the spec,
which treats them as external.
-/

namespace GoLint

/-- Modelled from the spec: descriptor of one analysis task (the Go type
linter.Config, whose declaration file is not among the sources; the fields
are the ones the sources and the spec data model use: unique name, the slow
flag consulted by IsSlowLinter, preset membership and enabled-by-default). -/
structure LinterConfig where
  name : String
  isSlow : Bool
  enabledByDefault : Bool
  inPresets : List String
  deriving Repr, DecidableEq, Inhabited

/-- Configuration of linter selection, from pkg/config/linters.go
(type config.Linters). -/
structure Linters where
  enable : List String
  disable : List String
  anduril : Bool
  enableAll : Bool
  disableAll : Bool
  fast : Bool
  presets : List String
  deriving Repr, DecidableEq, Inhabited

/-- The linter registry (lintersdb.Manager), an external collaborator per the
spec: it enumerates all supported linters, resolves a name or alias to the
matching linter configs (none for an unknown name, mirroring the nil slice
returned by GetLinterConfigs), lists the known presets (AllPresets) and the
configs belonging to a preset (GetAllLinterConfigsForPreset). -/
structure Manager where
  allSupported : List LinterConfig
  getLinterConfigs : String → Option (List LinterConfig)
  allPresets : List String
  allLinterConfigsForPreset : String → List LinterConfig

/-- The resolver result type: map from linter name to config
(Go map[string]*linter.Config), modelled as a lookup function. -/
def LinterMap : Type := String → Option LinterConfig

/-- The empty linter map. -/
def LinterMap.empty : LinterMap := fun _ => none

/-- Map insertion (Go m[k] = lc). -/
def LinterMap.insert (s : LinterMap) (k : String) (lc : LinterConfig) : LinterMap :=
  fun n => if n = k then some lc else s n

/-- Map deletion (Go delete(m, k)). -/
def LinterMap.erase (s : LinterMap) (k : String) : LinterMap :=
  fun n => if n = k then none else s n

/-- lintersdb.linterConfigsToMap: index a list of linter configs by name. -/
def linterConfigsToMap (lcs : List LinterConfig) : LinterMap :=
  lcs.foldl (fun acc lc => acc.insert lc.name lc) LinterMap.empty

/-- The initial seed set of EnabledSet.build (the switch at the top of the
function): presets imply disable-all, enable-all takes every supported
linter, disable-all starts empty, and the default case starts from the
enabled-by-default linters handed in by the caller. -/
def buildSeed (m : Manager) (lcfg : Linters) (enabledByDefaultLinters : List LinterConfig) :
    LinterMap :=
  if lcfg.presets ≠ [] then LinterMap.empty
  else if lcfg.enableAll then linterConfigsToMap m.allSupported
  else if lcfg.disableAll then LinterMap.empty
  else linterConfigsToMap enabledByDefaultLinters

/-- The presets loop of EnabledSet.build: union in every linter config that
belongs to a named preset. -/
def addPresetLinters (m : Manager) (presets : List String) (s : LinterMap) : LinterMap :=
  presets.foldl
    (fun acc p => (m.allLinterConfigsForPreset p).foldl
      (fun acc2 lc => acc2.insert lc.name lc) acc)
    s

/-- The fast loop of EnabledSet.build: delete every slow linter from the
current set.  The Go loop ranges over the map and deletes slow entries; the
result is the pointwise restriction to non-slow configs. -/
def removeSlowLinters (s : LinterMap) : LinterMap :=
  fun n =>
    match s n with
    | some lc => if lc.isSlow then none else some lc
    | none => none

/-- The enable loop of EnabledSet.build: for each name, insert every config
the registry resolves it to, keyed by the canonical config name (a range
over a nil slice for an unknown name does nothing). -/
def applyEnable (m : Manager) (names : List String) (s : LinterMap) : LinterMap :=
  names.foldl
    (fun acc name => ((m.getLinterConfigs name).getD []).foldl
      (fun a lc => a.insert lc.name lc) acc)
    s

/-- The disable loop of EnabledSet.build: for each name, delete every config
the registry resolves it to, by canonical config name. -/
def applyDisable (m : Manager) (names : List String) (s : LinterMap) : LinterMap :=
  names.foldl
    (fun acc name => ((m.getLinterConfigs name).getD []).foldl
      (fun a lc => a.erase lc.name) acc)
    s

/-- The custom-linters loop of EnabledSet.build: each entry is the outcome of
loadCustomLinterConfig for one configured custom linter (none when loading
failed, in which case the error is only logged and the entry skipped). -/
def applyCustomLinters (custom : List (Option LinterConfig)) (s : LinterMap) : LinterMap :=
  custom.foldl
    (fun acc r =>
      match r with
      | some lc => acc.insert lc.name lc
      | none => acc)
    s

/-- EnabledSet.build: seed, then presets, then the fast filter, then the
explicit enable and disable lists, then the custom linters. -/
def build (m : Manager) (lcfg : Linters) (enabledByDefaultLinters : List LinterConfig)
    (custom : List (Option LinterConfig)) : LinterMap :=
  let seed := buildSeed m lcfg enabledByDefaultLinters
  let afterPresets := addPresetLinters m lcfg.presets seed
  let afterFast := if lcfg.fast then removeSlowLinters afterPresets else afterPresets
  let afterEnable := applyEnable m lcfg.enable afterFast
  let afterDisable := applyDisable m lcfg.disable afterEnable
  applyCustomLinters custom afterDisable

/-- The errors the validator can return.  The spec groups the first
constructor under UnknownTaskError and all the others under
ConfigConflictError. -/
inductive ValidationError where
  | unknownLinters (names : List String)
  | unknownPreset (preset : String)
  | presetsWithEnableAll
  | enableAllAndDisableAll
  | allDisabledNoneEnabled
  | disableAllWithDisable (name : String)
  | enableAllWithEnable (name : String)
  | enabledAndDisabled (name : String)
  deriving Repr, DecidableEq

/-- The unknown-task error kind of the spec taxonomy. -/
def ValidationError.isUnknownTaskError : ValidationError → Bool
  | .unknownLinters _ => true
  | _ => false

/-- The configuration-conflict error kind of the spec taxonomy: every
validator error other than the unknown-linters one. -/
def ValidationError.isConfigConflictError (e : ValidationError) : Bool :=
  !e.isUnknownTaskError

/-- Validator.validateLintersNames: collect the enable then disable names the
registry cannot resolve; error when any exist. -/
def validateLintersNames (m : Manager) (cfg : Linters) : Option ValidationError :=
  let allNames := cfg.enable ++ cfg.disable
  let unknownNames := allNames.filter (fun name => (m.getLinterConfigs name).isNone)
  if unknownNames = [] then none else some (.unknownLinters unknownNames)

/-- Validator.validatePresets: the first preset name outside the known preset
set is an error; then presets combined with enable-all is an error. -/
def validatePresets (m : Manager) (cfg : Linters) : Option ValidationError :=
  match cfg.presets.find? (fun p => !m.allPresets.contains p) with
  | some p => some (.unknownPreset p)
  | none =>
      if cfg.presets ≠ [] ∧ cfg.enableAll then some .presetsWithEnableAll else none

/-- Validator.validateAllDisableEnableOptions, with the same check order as
the Go function. -/
def validateAllDisableEnableOptions (cfg : Linters) : Option ValidationError :=
  if cfg.enableAll ∧ cfg.disableAll then some .enableAllAndDisableAll
  else if cfg.disableAll ∧ cfg.enable = [] ∧ cfg.presets = [] then
    some .allDisabledNoneEnabled
  else if cfg.disableAll ∧ cfg.disable ≠ [] then
    some (.disableAllWithDisable (cfg.disable.headD ""))
  else if cfg.enableAll ∧ cfg.enable ≠ [] ∧ ¬cfg.fast then
    some (.enableAllWithEnable (cfg.enable.headD ""))
  else none

/-- Validator.validateDisabledAndEnabledAtOneMoment: the first disabled name
that is also enabled is an error. -/
def validateDisabledAndEnabledAtOneMoment (cfg : Linters) : Option ValidationError :=
  match cfg.disable.find? (fun name => cfg.enable.contains name) with
  | some name => some (.enabledAndDisabled name)
  | none => none

/-- Validator.validateEnabledDisabledLintersConfig: run the four validators in
order and return the first error. -/
def validateEnabledDisabledLintersConfig (m : Manager) (cfg : Linters) :
    Option ValidationError :=
  match validateLintersNames m cfg with
  | some e => some e
  | none =>
    match validatePresets m cfg with
    | some e => some e
    | none =>
      match validateAllDisableEnableOptions cfg with
      | some e => some e
      | none => validateDisabledAndEnabledAtOneMoment cfg

/-! Orchestrator (Runner) and pipeline, from the runner source file. -/

/-- Modelled from the spec: one diagnostic (the Go type result.Issue, whose
declaration file is not among the sources), restricted to the fields of the
spec data model that the sources under verification use: file path, line,
message text and source task id (FromLinter). -/
structure Issue where
  filePath : String
  line : Nat
  text : String
  fromLinter : String
  deriving Repr, DecidableEq, Inhabited

/-- The outcome of one call of lc.Linter.Run inside runLinterSafe: a normal
return of issues, a returned error, or a raised panic (which the deferred
recover of runLinterSafe intercepts). -/
inductive LinterOutcome where
  | ok (issues : List Issue)
  | fails (msg : String)
  | panics (msg : String)
  deriving Repr, DecidableEq

/-- The per-linter error produced by runLinterSafe: either the error the
linter returned, or the error fabricated from a recovered panic. -/
inductive LinterError where
  | runFailed (msg : String)
  | panicked (msg : String)
  deriving Repr, DecidableEq

/-- The stamping loop of runLinterSafe: an issue whose FromLinter field is
empty receives the name of the linter that produced it. -/
def stampIssues (lc : LinterConfig) (issues : List Issue) : List Issue :=
  issues.map (fun i => if i.fromLinter = "" then { i with fromLinter := lc.name } else i)

/-- Runner.runLinterSafe: a panic is recovered and turned into an error, a
returned error is propagated, and on success the issues are stamped with the
linter name where the field was left empty.  (The shared-context clearing for
DoesChangeTypes linters only touches the analysis context, which is external
to this model.) -/
def runLinterSafe (lc : LinterConfig) (out : LinterOutcome) :
    Except LinterError (List Issue) :=
  match out with
  | .panics msg => .error (.panicked msg)
  | .fails msg => .error (.runFailed msg)
  | .ok issues => .ok (stampIssues lc issues)

/-- The body of the linter loop of Runner.Run: a successful linter appends
its issues, a failing one appends its name and error to the aggregate error
(Go errors.Join, modelled as the list of joined parts). -/
def runnerStep (acc : List Issue × List (String × LinterError))
    (p : LinterConfig × LinterOutcome) : List Issue × List (String × LinterError) :=
  match runLinterSafe p.1 p.2 with
  | .ok is => (acc.1 ++ is, acc.2)
  | .error e => (acc.1, acc.2 ++ [(p.1.name, e)])

/-- The linter loop of Runner.Run: fold runnerStep over the linters. -/
def runnerCollect (linters : List (LinterConfig × LinterOutcome)) :
    List Issue × List (String × LinterError) :=
  linters.foldl runnerStep ([], [])

/-- The issues contributed by the linters of a run that succeed; a failing
linter contributes nothing. -/
def successIssues (linters : List (LinterConfig × LinterOutcome)) : List Issue :=
  linters.flatMap
    (fun p =>
      match runLinterSafe p.1 p.2 with
      | .ok is => is
      | .error _ => [])

/-- The aggregate error parts of a run: name and error of every failing
linter, in execution order. -/
def lintErrorsOf (linters : List (LinterConfig × LinterOutcome)) :
    List (String × LinterError) :=
  linters.filterMap
    (fun p =>
      match runLinterSafe p.1 p.2 with
      | .ok _ => none
      | .error e => some (p.1.name, e))

/-- One pipeline stage (the Go Processor contract): a name and a process call
yielding the surviving issues or an error.  Stages whose Go implementation is
stateful are embedded as closures over their private state, which is fresh
per run. -/
structure Processor where
  name : String
  process : List Issue → Except String (List Issue)

/-- The stage loop of Runner.processIssues: a stage that returns an error is
logged and skipped, and the next stage receives the unchanged input;
otherwise the stage output replaces the sequence.  (The Go nil-to-empty
normalization is invisible here because Lean has a single empty list.) -/
def processIssues (procs : List Processor) (issues : List Issue) : List Issue :=
  match procs with
  | [] => issues
  | p :: rest =>
    match p.process issues with
    | .ok newIssues => processIssues rest newIssues
    | .error _ => processIssues rest issues

/-- Runner.processLintResults: an empty input sequence short-circuits the
stage loop (the Go code only feeds a non-empty inIssues through
processIssues); the Finish hooks and statistics are logging only. -/
def processLintResults (procs : List Processor) (inIssues : List Issue) : List Issue :=
  if inIssues = [] then [] else processIssues procs inIssues

/-- Runner.Run: execute every linter sequentially through runLinterSafe,
hand the accumulated issues to the pipeline exactly once, and return the
processed issues together with the aggregate error parts. -/
def runnerRun (procs : List Processor) (linters : List (LinterConfig × LinterOutcome)) :
    List Issue × List (String × LinterError) :=
  ((runnerCollect linters).1 |> processLintResults procs, (runnerCollect linters).2)

/-! Generated-file classification (autogenerated_exclude processor).
The Go strings package is external; its functions used by the stage are
modelled at the character-list level. -/

/-- Go strings.TrimSpace, over the ASCII whitespace subset. -/
def trimChars (l : List Char) : List Char :=
  ((l.dropWhile Char.isWhitespace).reverse.dropWhile Char.isWhitespace).reverse

/-- Go strings.TrimSpace on strings. -/
def strTrim (s : String) : String :=
  String.mk (trimChars s.toList)

/-- Go strings.HasPrefix. -/
def strStartsWith (s pre : String) : Bool :=
  pre.toList.isPrefixOf s.toList

/-- Go strings.HasSuffix. -/
def strEndsWith (s suf : String) : Bool :=
  suf.toList.isSuffixOf s.toList

/-- Dropping the first characters of a string (used for the comment leader,
Go strings.TrimPrefix on a known prefix). -/
def strDrop (s : String) (n : Nat) : String :=
  String.mk (s.toList.drop n)

/-- Go strings.ToLower, over the ASCII subset. -/
def strToLower (s : String) : String :=
  String.mk (s.toList.map Char.toLower)

/-- Go strings.Join. -/
def strJoin (sep : String) : List String → String
  | [] => ""
  | [s] => s
  | s :: rest => s ++ sep ++ strJoin sep rest

/-- Occurrence of a pattern inside a character list: the pattern prefixes the
list or occurs in its tail. -/
def containsSub (pat : List Char) : List Char → Bool
  | [] => pat.isPrefixOf []
  | c :: rest => pat.isPrefixOf (c :: rest) || containsSub pat rest

/-- Go strings.Contains. -/
def strContains (s pat : String) : Bool :=
  containsSub pat.toList s.toList

/-- The marker phrases of isGeneratedFileByComment. -/
def generatedMarkers : List String :=
  ["code generated", "do not edit", "autogenerated file"]

/-- isGeneratedFileByComment: lower-case the collected doc text and look for
any of the marker phrases. -/
def isGeneratedFileByComment (doc : String) : Bool :=
  generatedMarkers.any (fun marker => strContains (strToLower doc) marker)

/-- The scan loop of getDoc over the lines of a file: a trimmed line that is
a comment contributes its text, a blank or package line is skipped, and the
first other line stops the scan. -/
def getDocLines : List String → List String
  | [] => []
  | l :: rest =>
    let line := strTrim l
    if strStartsWith line "//" then (strTrim (strDrop line 2)) :: getDocLines rest
    else if line = "" ∨ strStartsWith line "package" then getDocLines rest
    else []

/-- getDoc: the collected leading comment text of a file, joined with
newlines.  The file is given as its list of scanned lines (the bufio line
scanner and its buffer cap are external I/O). -/
def getDoc (lines : List String) : String :=
  strJoin "\n" (getDocLines lines)

/-- The classification of a whole file: generated exactly when its leading
doc text contains a marker. -/
def isGeneratedFile (lines : List String) : Bool :=
  isGeneratedFileByComment (getDoc lines)

/-- Whether a trimmed line belongs to the leading block getDoc scans:
comment, blank, or package declaration. -/
def isDocScanLine (l : String) : Bool :=
  strStartsWith (strTrim l) "//" || strTrim l = "" || strStartsWith (strTrim l) "package"

/-! Path helpers (Go path/filepath, external standard library). -/

/-- Split a character list on a separator character. -/
def splitOnChar (sep : Char) : List Char → List (List Char)
  | [] => [[]]
  | c :: rest =>
    let r := splitOnChar sep rest
    if c = sep then [] :: r
    else
      match r with
      | h :: t => (c :: h) :: t
      | [] => [[c]]

/-- The slash-separated components of a path. -/
def pathComponents (p : String) : List String :=
  (splitOnChar '/' p.toList).map (fun cs => String.mk cs)

/-- Go filepath.Base on slash paths: the last non-empty component, with the
empty path giving a dot and an all-slash path giving a slash. -/
def filepathBase (p : String) : String :=
  if p = "" then "."
  else
    match (pathComponents p).reverse.find? (fun c => c ≠ "") with
    | some c => c
    | none => "/"

/-- Go filepath.Dir on slash paths: everything before the last component,
with a single component giving a dot and a root child giving a slash.  (The
Clean normalization of repeated slashes is not modelled; the paths the
claims involve are already clean.) -/
def filepathDir (p : String) : String :=
  let comps := pathComponents p
  if comps.length ≤ 1 then "."
  else
    let d := strJoin "/" comps.dropLast
    if d = "" then "/" else d

/-- Go filepath.IsAbs on slash paths. -/
def isAbsPath (p : String) : Bool :=
  strStartsWith p "/"

/-! The autogenerated_exclude stage with its per-file summary cache. -/

/-- The per-file summary of the autogenerated_exclude stage (ageFileSummary);
its zero value has isGenerated false. -/
structure AgeFileSummary where
  isGenerated : Bool
  deriving Repr, DecidableEq, Inhabited

/-- The stage-private summary cache (ageFileSummaryCache), keyed by file
path. -/
def AgeCache : Type := String → Option AgeFileSummary

/-- The file system seen by a stage: a path reads to its list of lines or to
an error (open or scan failure). -/
def FileSystem : Type := String → Except String (List String)

/-- isSpecialAutogeneratedFile: the fake file names goyacc points line
directives at are always treated as generated. -/
def isSpecialAutogeneratedFile (filePath : String) : Bool :=
  let fileName := filepathBase filePath
  fileName = "yacctab" || fileName = "yaccpar" || fileName = "NONE"

/-- AutogeneratedExclude.getOrCreateFileSummary: a cache hit returns the
memoized summary; on a miss a zero-value summary is stored under the path
before anything is read, then an empty path or a failing read is an error
(leaving the zero-value summary memoized), and a successful read stores and
returns the classification (the Go code updates the cached summary through
its pointer). -/
def getOrCreateFileSummary (fsys : FileSystem) (cache : AgeCache) (i : Issue) :
    AgeCache × Except String AgeFileSummary :=
  match cache i.filePath with
  | some fs => (cache, .ok fs)
  | none =>
    let cache1 : AgeCache := fun p => if p = i.filePath then some ⟨false⟩ else cache p
    if i.filePath = "" then (cache1, .error "no file path for issue")
    else
      match fsys i.filePath with
      | .error e => (cache1, .error e)
      | .ok lines =>
        let isGen := isGeneratedFile lines
        (fun p => if p = i.filePath then some ⟨isGen⟩ else cache1 p, .ok ⟨isGen⟩)

/-- AutogeneratedExclude.shouldPassIssue: typecheck issues always pass, the
special goyacc names never pass, and otherwise the memoized file summary
decides (issues of generated files are dropped). -/
def agShouldPassIssue (fsys : FileSystem) (cache : AgeCache) (i : Issue) :
    AgeCache × Except String Bool :=
  if i.fromLinter = "typecheck" then (cache, .ok true)
  else if isSpecialAutogeneratedFile i.filePath then (cache, .ok false)
  else
    match getOrCreateFileSummary fsys cache i with
    | (c, .error e) => (c, .error e)
    | (c, .ok fs) => (c, .ok (!fs.isGenerated))

/-- Modelled from the spec: the shared per-issue filter helper of the
processors package (filterIssuesErr, whose utility file is not among the
sources).  Each filtering stage yields the surviving diagnostics or an
error; the loop keeps the issues whose predicate passes, threading the
stage-private state, and stops at the first per-issue error. -/
def filterIssuesErr {σ : Type} (f : σ → Issue → σ × Except String Bool) :
    σ → List Issue → σ × Except String (List Issue)
  | s, [] => (s, .ok [])
  | s, i :: rest =>
    match f s i with
    | (s1, .error e) => (s1, .error e)
    | (s1, .ok keep) =>
      match filterIssuesErr f s1 rest with
      | (s2, .error e) => (s2, .error e)
      | (s2, .ok out) => (s2, .ok (if keep then i :: out else out))

/-- AutogeneratedExclude.Process with a fresh cache (the cache of the Go
stage instance is constructed empty per run). -/
def autogenProcess (fsys : FileSystem) (issues : List Issue) :
    Except String (List Issue) :=
  (filterIssuesErr (agShouldPassIssue fsys) (fun _ => none) issues).2

/-- The autogenerated_exclude stage as a pipeline processor. -/
def autogenProcessor (fsys : FileSystem) : Processor :=
  ⟨"autogenerated_exclude", autogenProcess fsys⟩

/-! The skip_dirs stage. -/

/-- The stage-private data of SkipDirs built by NewSkipDirs: the compiled
skip patterns (a compiled regular expression is embedded as its match
function, an external collaborator), the absolutized directories of the
analysis arguments, and the path-prefix decoration applied before matching
(fsutils.WithPathPrefix, also external). -/
structure SkipDirsEnv where
  patterns : List (String → Bool)
  absArgsDirs : List String
  wpp : String → String

/-- The argument normalization of NewSkipDirs: an empty argument list means
the current tree; an argument whose base is the recursive wildcard or a Go
file is replaced by its directory; every argument is then absolutized (Go
filepath.Abs, modelled by the ambient abs function). -/
def mkSkipDirsEnv (abs : String → String) (patterns : List (String → Bool))
    (runArgs : List String) (wpp : String → String) : SkipDirsEnv :=
  let args := if runArgs = [] then ["./..."] else runArgs
  let absArgsDirs := args.map
    (fun arg =>
      let base := filepathBase arg
      let arg2 := if base = "..." || strEndsWith base ".go" then filepathDir arg else arg
      abs arg2)
  ⟨patterns, absArgsDirs, wpp⟩

/-- SkipDirs.shouldPassIssueDirs: a directory that equals one of the
absolutized argument directories always passes, even when a skip pattern
matches; otherwise the issue passes exactly when no pattern matches the
prefixed relative directory.  (The skip statistics are logging only.) -/
def sdShouldPassIssueDirs (env : SkipDirsEnv) (issueRelDir issueAbsDir : String) : Bool :=
  if env.absArgsDirs.contains issueAbsDir then true
  else !env.patterns.any (fun re => re (env.wpp issueRelDir))

/-- SkipDirs.shouldPassIssue: an absolute issue path passes outright; for a
relative path the per-directory decision is memoized in the stage cache. -/
def sdShouldPassIssue (abs : String → String) (env : SkipDirsEnv)
    (cache : String → Option Bool) (i : Issue) : (String → Option Bool) × Bool :=
  if isAbsPath i.filePath then (cache, true)
  else
    let issueRelDir := filepathDir i.filePath
    match cache issueRelDir with
    | some toPass => (cache, toPass)
    | none =>
      let issueAbsDir := abs issueRelDir
      let toPass := sdShouldPassIssueDirs env issueRelDir issueAbsDir
      (fun d => if d = issueRelDir then some toPass else cache d, toPass)

/-- Modelled from the spec: the shared error-free filter helper of the
processors package (filterIssues, whose utility file is not among the
sources): keep the issues whose predicate passes, threading the
stage-private state. -/
def filterIssuesState {σ : Type} (f : σ → Issue → σ × Bool) :
    σ → List Issue → σ × List Issue
  | s, [] => (s, [])
  | s, i :: rest =>
    match f s i with
    | (s1, keep) =>
      match filterIssuesState f s1 rest with
      | (s2, out) => (s2, if keep then i :: out else out)

/-- SkipDirs.Process: with no pattern the stage is the identity; otherwise it
filters through shouldPassIssue. -/
def skipDirsProcess (abs : String → String) (env : SkipDirsEnv)
    (cache : String → Option Bool) (issues : List Issue) :
    (String → Option Bool) × List Issue :=
  if env.patterns.isEmpty then (cache, issues)
  else filterIssuesState (sdShouldPassIssue abs env) cache issues

/-! Concrete fixtures used to instantiate the theorems below. -/

/-- A small concrete registry: one fast default linter and one slow one. -/
def govetCfg : LinterConfig := ⟨"govet", false, true, ["bugs"]⟩

/-- A slow linter config. -/
def slowlintCfg : LinterConfig := ⟨"slowlint", true, false, ["style"]⟩

/-- A concrete registry holding the two fixture linters and two presets. -/
def mEx : Manager :=
  ⟨[govetCfg, slowlintCfg],
   fun n =>
     if n = "govet" then some [govetCfg]
     else if n = "slowlint" then some [slowlintCfg]
     else none,
   ["bugs", "style"],
   fun p => if p = "bugs" then [govetCfg] else []⟩

/-- The all-defaults linter selection configuration. -/
def cfg0 : Linters := ⟨[], [], false, false, false, false, []⟩

/-- A concrete file system with one generated file. -/
def fsysEx : FileSystem := fun p =>
  if p = "zz_generated.go" then
    .ok ["// Code generated by tool; DO NOT EDIT.", "package foo", "func f() int"]
  else .error "no such file"

/-- A file system on which every read fails. -/
def fsysBad : FileSystem := fun _ => .error "read failed"

/-- A diagnostic reported inside the generated fixture file. -/
def issueEx : Issue := ⟨"zz_generated.go", 5, "some issue", "mylinter"⟩

/-- The most favorable model of a user include-path override: a stage that
retains every diagnostic it receives. -/
def includeOverrideStage : Processor := ⟨"include-path-override", fun issues => .ok issues⟩

/-- A stage whose process call always fails. -/
def failingStage : Processor := ⟨"failing", fun _ => .error "boom"⟩

/-- A stage that drops every diagnostic. -/
def dropAllStage : Processor := ⟨"drop-all", fun _ => .ok []⟩

/-- A concrete absolutization function rooting relative paths at a working
directory. -/
def absEx : String → String := fun p => if isAbsPath p then p else "/w/" ++ p

/-- A concrete skip-dirs environment whose single pattern matches every
directory, with pkg/foo passed as the analysis argument. -/
def sdEnvEx : SkipDirsEnv := mkSkipDirsEnv absEx [fun _ => true] ["pkg/foo"] (fun s => s)

/-- A diagnostic inside the explicitly given analysis directory. -/
def sdIssueEx : Issue := ⟨"pkg/foo/a.go", 3, "finding", "mylinter"⟩

/-! Helper lemmas about the resolver folds. -/

theorem foldl_erase_some {lcs : List LinterConfig} {s : LinterMap} {n : String}
    {lc : LinterConfig}
    (h : (lcs.foldl (fun a lc2 => a.erase lc2.name) s) n = some lc) : s n = some lc := by
  induction lcs generalizing s with
  | nil => exact h
  | cons hd tl ih =>
    have h2 := ih h
    by_cases hk : n = hd.name
    · simp [LinterMap.erase, hk] at h2
    · simpa [LinterMap.erase, hk] using h2

theorem applyDisable_some {m : Manager} {names : List String} {s : LinterMap} {n : String}
    {lc : LinterConfig} (h : applyDisable m names s n = some lc) : s n = some lc := by
  induction names generalizing s with
  | nil => exact h
  | cons hd tl ih => exact foldl_erase_some (ih h)

theorem removeSlowLinters_some {s : LinterMap} {n : String} {lc : LinterConfig}
    (h : removeSlowLinters s n = some lc) : lc.isSlow = false ∧ s n = some lc := by
  unfold removeSlowLinters at h
  cases hs : s n with
  | none => simp [hs] at h
  | some lc2 =>
    simp only [hs] at h
    by_cases hslow : lc2.isSlow = true
    · simp [hslow] at h
    · simp only [Bool.not_eq_true] at hslow
      simp only [hslow, Bool.false_eq_true, if_false, Option.some.injEq] at h
      cases h
      exact ⟨hslow, rfl⟩

theorem foldl_insert_isSome_preserve {lcs : List LinterConfig} {s : LinterMap} {k : String}
    (h : (s k).isSome) :
    ((lcs.foldl (fun a lc => a.insert lc.name lc) s) k).isSome := by
  induction lcs generalizing s with
  | nil => exact h
  | cons hd tl ih =>
    apply ih
    by_cases hk : k = hd.name <;> simp [LinterMap.insert, hk, h]

theorem foldl_insert_isSome_mem {lcs : List LinterConfig} {s : LinterMap}
    {lc : LinterConfig} (h : lc ∈ lcs) :
    ((lcs.foldl (fun a lc2 => a.insert lc2.name lc2) s) lc.name).isSome := by
  induction lcs generalizing s with
  | nil => cases h
  | cons hd tl ih =>
    rcases List.mem_cons.mp h with rfl | h
    · rw [List.foldl_cons]
      exact foldl_insert_isSome_preserve (by simp [LinterMap.insert])
    · exact ih h

theorem applyEnable_isSome_preserve {m : Manager} {names : List String} {s : LinterMap}
    {k : String} (h : (s k).isSome) : ((applyEnable m names s) k).isSome := by
  induction names generalizing s with
  | nil => exact h
  | cons hd tl ih => exact ih (foldl_insert_isSome_preserve h)

theorem applyEnable_isSome_mem {m : Manager} {names : List String} {s : LinterMap}
    {name : String} {lc : LinterConfig} (hmem : name ∈ names)
    (hres : lc ∈ (m.getLinterConfigs name).getD []) :
    ((applyEnable m names s) lc.name).isSome := by
  induction names generalizing s with
  | nil => cases hmem
  | cons hd tl ih =>
    rcases List.mem_cons.mp hmem with rfl | hmem
    · rw [applyEnable, List.foldl_cons, ← applyEnable]
      exact applyEnable_isSome_preserve (foldl_insert_isSome_mem hres)
    · exact ih hmem

theorem foldl_erase_other {lcs : List LinterConfig} {s : LinterMap} {k : String}
    (h : ∀ lc ∈ lcs, lc.name ≠ k) :
    (lcs.foldl (fun a lc => a.erase lc.name) s) k = s k := by
  induction lcs generalizing s with
  | nil => rfl
  | cons hd tl ih =>
    rw [List.foldl_cons, ih (fun lc hm => h lc (List.mem_cons_of_mem hd hm))]
    have hne := h hd (List.mem_cons_self hd tl)
    simp [LinterMap.erase, Ne.symm hne]

theorem applyDisable_other {m : Manager} {names : List String} {s : LinterMap} {k : String}
    (h : ∀ d ∈ names, ∀ lc ∈ (m.getLinterConfigs d).getD [], lc.name ≠ k) :
    applyDisable m names s k = s k := by
  induction names generalizing s with
  | nil => rfl
  | cons hd tl ih =>
    rw [applyDisable, List.foldl_cons, ← applyDisable,
      ih (fun d hm => h d (List.mem_cons_of_mem hd hm))]
    exact foldl_erase_other (h hd (List.mem_cons_self hd tl))

theorem applyCustomLinters_isSome_preserve {custom : List (Option LinterConfig)}
    {s : LinterMap} {k : String} (h : (s k).isSome) :
    ((applyCustomLinters custom s) k).isSome := by
  induction custom generalizing s with
  | nil => exact h
  | cons hd tl ih =>
    cases hd with
    | none => exact ih h
    | some lc =>
      apply ih
      by_cases hk : k = lc.name <;> simp [LinterMap.insert, hk, h]

/-- C1.  For every configuration, the initial seed set of EnabledSet.build is
computed exactly as the spec states: a non-empty preset list forces an empty
seed; otherwise enable-all seeds with every known task; otherwise
disable-all seeds empty; otherwise the seed is the default-enabled subset. -/
theorem resolver_seed_spec (m : Manager) (lcfg : Linters)
    (defaults : List LinterConfig) :
    (lcfg.presets ≠ [] → buildSeed m lcfg defaults = LinterMap.empty) ∧
    (lcfg.presets = [] → lcfg.enableAll = true →
      buildSeed m lcfg defaults = linterConfigsToMap m.allSupported) ∧
    (lcfg.presets = [] → lcfg.enableAll = false → lcfg.disableAll = true →
      buildSeed m lcfg defaults = LinterMap.empty) ∧
    (lcfg.presets = [] → lcfg.enableAll = false → lcfg.disableAll = false →
      buildSeed m lcfg defaults = linterConfigsToMap defaults) := by
  refine ⟨?_, ?_, ?_, ?_⟩ <;> intros <;> simp_all [buildSeed]

/-- Witness for C1 at a concrete configuration with a preset. -/
theorem resolver_seed_spec_witness :
    ({ cfg0 with presets := ["bugs"] } : Linters).presets ≠ [] ∧
    buildSeed mEx { cfg0 with presets := ["bugs"] } [] = LinterMap.empty :=
  ⟨by decide, (resolver_seed_spec mEx { cfg0 with presets := ["bugs"] } []).1 (by decide)⟩

/-- C5.  With the fast flag set, slow tasks are removed after preset
membership is unioned in and before the explicit lists apply: a fast build
with no explicit enable list and no custom linters contains no slow task,
while a slow task named in the explicit enable list (and not disabled) is
still present in the final resolved set. -/
theorem fast_removal_order (m : Manager) (lcfg : Linters)
    (defaults : List LinterConfig) (custom : List (Option LinterConfig))
    (lc : LinterConfig) :
    (lcfg.fast = true → lcfg.enable = [] → custom = [] →
      ∀ n lc0, build m lcfg defaults custom n = some lc0 → lc0.isSlow = false) ∧
    (lcfg.fast = true → lc.isSlow = true →
      (∃ name ∈ lcfg.enable, lc ∈ (m.getLinterConfigs name).getD []) →
      (∀ d ∈ lcfg.disable, ∀ lc2 ∈ (m.getLinterConfigs d).getD [], lc2.name ≠ lc.name) →
      (build m lcfg defaults custom lc.name).isSome = true) := by
  constructor
  · intro hfast henable hcustom n lc0 h
    subst hcustom
    rw [build] at h
    simp only [hfast, if_pos rfl, henable] at h
    have h2 : applyDisable m lcfg.disable
        (applyEnable m [] (removeSlowLinters
          (addPresetLinters m lcfg.presets (buildSeed m lcfg defaults)))) n = some lc0 := h
    have h3 := applyDisable_some h2
    exact (removeSlowLinters_some h3).1
  · intro _ _ hmem hdis
    rcases hmem with ⟨name, hn, hlc⟩
    rw [build]
    apply applyCustomLinters_isSome_preserve
    rw [applyDisable_other hdis]
    exact applyEnable_isSome_mem hn hlc

/-- Witness for C5: a fast run where the slow fixture linter is explicitly
enabled still resolves it. -/
theorem fast_removal_order_witness :
    (build mEx { cfg0 with fast := true, enable := ["slowlint"] } [govetCfg] []
      "slowlint").isSome = true :=
  (fast_removal_order mEx { cfg0 with fast := true, enable := ["slowlint"] }
    [govetCfg] [] slowlintCfg).2 rfl rfl
    ⟨"slowlint", by decide, by decide⟩ (by decide)

/-! Helper lemmas about the validator. -/

theorem validateLintersNames_eq_none_iff {m : Manager} {cfg : Linters} :
    validateLintersNames m cfg = none ↔
      ∀ n ∈ cfg.enable ++ cfg.disable, (m.getLinterConfigs n).isSome := by
  unfold validateLintersNames
  by_cases h : ((cfg.enable ++ cfg.disable).filter
      (fun name => (m.getLinterConfigs name).isNone)) = []
  · rw [if_pos h]
    refine iff_of_true rfl ?_
    intro n hn
    have h2 := List.filter_eq_nil_iff.mp h n hn
    simpa [Option.isNone_iff_eq_none, Option.isSome_iff_ne_none] using h2
  · rw [if_neg h]
    refine iff_of_false (by simp) ?_
    intro hall
    apply h
    apply List.filter_eq_nil_iff.mpr
    intro n hn
    simp [Option.isNone_iff_eq_none, Option.isSome_iff_ne_none.mp (hall n hn)]

theorem validatePresets_eq_none_iff {m : Manager} {cfg : Linters} :
    validatePresets m cfg = none ↔
      ((∀ p ∈ cfg.presets, p ∈ m.allPresets) ∧
        ¬(cfg.presets ≠ [] ∧ cfg.enableAll = true)) := by
  unfold validatePresets
  rcases hf : cfg.presets.find? (fun p => !m.allPresets.contains p) with _ | p
  · have hall : ∀ p ∈ cfg.presets, p ∈ m.allPresets := by
      intro p hp
      have h2 := List.find?_eq_none.mp hf p hp
      simpa using h2
    by_cases hc : cfg.presets ≠ [] ∧ cfg.enableAll = true
    · rw [if_pos hc]
      refine iff_of_false (by simp) ?_
      intro ⟨_, hcon⟩
      exact hcon hc
    · rw [if_neg hc]
      exact iff_of_true rfl ⟨hall, hc⟩
  · refine iff_of_false (by simp) ?_
    intro ⟨hall, _⟩
    have hp := List.find?_some hf
    have hmem := List.mem_of_find?_eq_some hf
    have h3 := hall p hmem
    simp [h3] at hp

theorem validateADEO_eq_none_iff {cfg : Linters} :
    validateAllDisableEnableOptions cfg = none ↔
      (¬(cfg.enableAll = true ∧ cfg.disableAll = true) ∧
       ¬(cfg.disableAll = true ∧ cfg.enable = [] ∧ cfg.presets = []) ∧
       ¬(cfg.disableAll = true ∧ cfg.disable ≠ []) ∧
       ¬(cfg.enableAll = true ∧ cfg.enable ≠ [] ∧ ¬cfg.fast = true)) := by
  unfold validateAllDisableEnableOptions
  split_ifs with h1 h2 h3 h4 <;> simp_all

theorem validateDE_eq_none_iff {cfg : Linters} :
    validateDisabledAndEnabledAtOneMoment cfg = none ↔
      ∀ n ∈ cfg.disable, n ∉ cfg.enable := by
  unfold validateDisabledAndEnabledAtOneMoment
  rcases hf : cfg.disable.find? (fun name => cfg.enable.contains name) with _ | n
  · refine iff_of_true rfl ?_
    intro n hn
    have h2 := List.find?_eq_none.mp hf n hn
    simpa using h2
  · refine iff_of_false (by simp) ?_
    intro hall
    have hp := List.find?_some hf
    have hmem := List.mem_of_find?_eq_some hf
    have h3 := hall n hmem
    simp [h3] at hp

theorem validate_chain_eq_none {m : Manager} {cfg : Linters} :
    validateEnabledDisabledLintersConfig m cfg = none ↔
      (validateLintersNames m cfg = none ∧ validatePresets m cfg = none ∧
       validateAllDisableEnableOptions cfg = none ∧
       validateDisabledAndEnabledAtOneMoment cfg = none) := by
  unfold validateEnabledDisabledLintersConfig
  rcases h1 : validateLintersNames m cfg with _ | e1 <;>
    rcases h2 : validatePresets m cfg with _ | e2 <;>
      rcases h3 : validateAllDisableEnableOptions cfg with _ | e3 <;> simp

/-- C2.  Validation fails exactly on the configurations that violate the
resolver contract, and each single violation (the earlier validators
passing) produces its specific error: an unresolvable enable/disable name
yields the unknown-task error, and each of the seven listed conflicts yields
the corresponding configuration-conflict error. -/
theorem validator_error_spec (m : Manager) (cfg : Linters) :
    (validateEnabledDisabledLintersConfig m cfg = none ↔
      ((∀ n ∈ cfg.enable ++ cfg.disable, (m.getLinterConfigs n).isSome) ∧
       (∀ p ∈ cfg.presets, p ∈ m.allPresets) ∧
       ¬(cfg.presets ≠ [] ∧ cfg.enableAll = true) ∧
       ¬(cfg.enableAll = true ∧ cfg.disableAll = true) ∧
       ¬(cfg.disableAll = true ∧ cfg.enable = [] ∧ cfg.presets = []) ∧
       ¬(cfg.disableAll = true ∧ cfg.disable ≠ []) ∧
       ¬(cfg.enableAll = true ∧ cfg.enable ≠ [] ∧ ¬cfg.fast = true) ∧
       (∀ n ∈ cfg.disable, n ∉ cfg.enable))) ∧
    ((∃ n ∈ cfg.enable ++ cfg.disable, m.getLinterConfigs n = none) →
      validateEnabledDisabledLintersConfig m cfg =
        some (.unknownLinters ((cfg.enable ++ cfg.disable).filter
          (fun n => (m.getLinterConfigs n).isNone))) ∧
      ∀ ns, (ValidationError.unknownLinters ns).isUnknownTaskError = true) ∧
    (validateLintersNames m cfg = none →
      ∀ p, cfg.presets.find? (fun q => !m.allPresets.contains q) = some p →
        validateEnabledDisabledLintersConfig m cfg = some (.unknownPreset p) ∧
        (ValidationError.unknownPreset p).isConfigConflictError = true) ∧
    (validateLintersNames m cfg = none → (∀ p ∈ cfg.presets, p ∈ m.allPresets) →
      cfg.presets ≠ [] → cfg.enableAll = true →
        validateEnabledDisabledLintersConfig m cfg = some .presetsWithEnableAll ∧
        ValidationError.presetsWithEnableAll.isConfigConflictError = true) ∧
    (validateLintersNames m cfg = none → validatePresets m cfg = none →
      cfg.enableAll = true → cfg.disableAll = true →
        validateEnabledDisabledLintersConfig m cfg = some .enableAllAndDisableAll ∧
        ValidationError.enableAllAndDisableAll.isConfigConflictError = true) ∧
    (validateLintersNames m cfg = none → validatePresets m cfg = none →
      cfg.enableAll = false → cfg.disableAll = true → cfg.enable = [] →
      cfg.presets = [] →
        validateEnabledDisabledLintersConfig m cfg = some .allDisabledNoneEnabled ∧
        ValidationError.allDisabledNoneEnabled.isConfigConflictError = true) ∧
    (validateLintersNames m cfg = none → validatePresets m cfg = none →
      cfg.enableAll = false → cfg.disableAll = true →
      (cfg.enable ≠ [] ∨ cfg.presets ≠ []) → cfg.disable ≠ [] →
        validateEnabledDisabledLintersConfig m cfg =
          some (.disableAllWithDisable (cfg.disable.headD "")) ∧
        (ValidationError.disableAllWithDisable
          (cfg.disable.headD "")).isConfigConflictError = true) ∧
    (validateLintersNames m cfg = none → validatePresets m cfg = none →
      cfg.enableAll = true → cfg.disableAll = false → cfg.enable ≠ [] →
      cfg.fast = false →
        validateEnabledDisabledLintersConfig m cfg =
          some (.enableAllWithEnable (cfg.enable.headD "")) ∧
        (ValidationError.enableAllWithEnable
          (cfg.enable.headD "")).isConfigConflictError = true) ∧
    (validateLintersNames m cfg = none → validatePresets m cfg = none →
      validateAllDisableEnableOptions cfg = none →
      ∀ n, cfg.disable.find? (fun x => cfg.enable.contains x) = some n →
        validateEnabledDisabledLintersConfig m cfg = some (.enabledAndDisabled n) ∧
        (ValidationError.enabledAndDisabled n).isConfigConflictError = true) := by
  refine ⟨?_, ?_, ?_, ?_, ?_, ?_, ?_, ?_, ?_⟩
  · rw [validate_chain_eq_none, validateLintersNames_eq_none_iff,
      validatePresets_eq_none_iff, validateADEO_eq_none_iff, validateDE_eq_none_iff]
    tauto
  · intro ⟨n, hn, hnone⟩
    have hne : (cfg.enable ++ cfg.disable).filter
        (fun x => (m.getLinterConfigs x).isNone) ≠ [] := by
      intro hnil
      have h2 := List.filter_eq_nil_iff.mp hnil n hn
      simp [hnone] at h2
    have hval : validateLintersNames m cfg =
        some (.unknownLinters ((cfg.enable ++ cfg.disable).filter
          (fun n => (m.getLinterConfigs n).isNone))) := by
      unfold validateLintersNames
      rw [if_neg hne]
    refine ⟨?_, fun _ => rfl⟩
    unfold validateEnabledDisabledLintersConfig
    simp only [hval]
  · intro h1 p hp
    have h2 : validatePresets m cfg = some (.unknownPreset p) := by
      unfold validatePresets
      simp only [hp]
    refine ⟨?_, rfl⟩
    unfold validateEnabledDisabledLintersConfig
    simp only [h1, h2]
  · intro h1 hall hne hea
    have hf : cfg.presets.find? (fun p => !m.allPresets.contains p) = none := by
      apply List.find?_eq_none.mpr
      intro p hp
      simp [hall p hp]
    have h2 : validatePresets m cfg = some .presetsWithEnableAll := by
      unfold validatePresets
      simp only [hf]
      rw [if_pos ⟨hne, hea⟩]
    refine ⟨?_, rfl⟩
    unfold validateEnabledDisabledLintersConfig
    simp only [h1, h2]
  · intro h1 h2 hea hda
    have h3 : validateAllDisableEnableOptions cfg = some .enableAllAndDisableAll := by
      unfold validateAllDisableEnableOptions
      rw [if_pos ⟨hea, hda⟩]
    refine ⟨?_, rfl⟩
    unfold validateEnabledDisabledLintersConfig
    simp only [h1, h2, h3]
  · intro h1 h2 hea hda hen hpr
    have h3 : validateAllDisableEnableOptions cfg = some .allDisabledNoneEnabled := by
      unfold validateAllDisableEnableOptions
      rw [if_neg (by simp [hea]), if_pos ⟨hda, hen, hpr⟩]
    refine ⟨?_, rfl⟩
    unfold validateEnabledDisabledLintersConfig
    simp only [h1, h2, h3]
  · intro h1 h2 hea hda hcomp hdis
    have h3 : validateAllDisableEnableOptions cfg =
        some (.disableAllWithDisable (cfg.disable.headD "")) := by
      unfold validateAllDisableEnableOptions
      rw [if_neg (by simp [hea]),
        if_neg (by
          rintro ⟨_, he, hp⟩
          rcases hcomp with hc | hc
          · exact hc he
          · exact hc hp),
        if_pos ⟨hda, hdis⟩]
    refine ⟨?_, rfl⟩
    unfold validateEnabledDisabledLintersConfig
    simp only [h1, h2, h3]
  · intro h1 h2 hea hda hen hfast
    have h3 : validateAllDisableEnableOptions cfg =
        some (.enableAllWithEnable (cfg.enable.headD "")) := by
      unfold validateAllDisableEnableOptions
      rw [if_neg (by simp [hda]), if_neg (by simp [hda]), if_neg (by simp [hda]),
        if_pos ⟨hea, hen, by simp [hfast]⟩]
    refine ⟨?_, rfl⟩
    unfold validateEnabledDisabledLintersConfig
    simp only [h1, h2, h3]
  · intro h1 h2 h3 n hn
    have h4 : validateDisabledAndEnabledAtOneMoment cfg =
        some (.enabledAndDisabled n) := by
      unfold validateDisabledAndEnabledAtOneMoment
      simp only [hn]
    refine ⟨?_, rfl⟩
    unfold validateEnabledDisabledLintersConfig
    simp only [h1, h2, h3, h4]

/-- Witness for C2: enable-all together with disable-all is rejected with the
specific conflict error. -/
theorem validator_error_spec_witness :
    validateEnabledDisabledLintersConfig mEx
        { cfg0 with enableAll := true, disableAll := true } =
      some .enableAllAndDisableAll ∧
    ValidationError.enableAllAndDisableAll.isConfigConflictError = true :=
  (validator_error_spec mEx { cfg0 with enableAll := true, disableAll := true }).2.2.2.2.1
    (by decide) (by decide) (by decide) (by decide)

/-! Helper lemmas about the orchestrator. -/

theorem runnerCollect_go (linters : List (LinterConfig × LinterOutcome))
    (acc : List Issue × List (String × LinterError)) :
    linters.foldl runnerStep acc =
      (acc.1 ++ successIssues linters, acc.2 ++ lintErrorsOf linters) := by
  induction linters generalizing acc with
  | nil => simp [successIssues, lintErrorsOf]
  | cons hd tl ih =>
    rw [List.foldl_cons, ih]
    unfold runnerStep successIssues lintErrorsOf
    cases h : runLinterSafe hd.1 hd.2 <;> simp [h]

theorem runnerCollect_eq (linters : List (LinterConfig × LinterOutcome)) :
    runnerCollect linters = (successIssues linters, lintErrorsOf linters) := by
  rw [runnerCollect, runnerCollect_go]
  simp

theorem processLintResults_nil_procs (issues : List Issue) :
    processLintResults [] issues = issues := by
  unfold processLintResults processIssues
  split_ifs with h
  · exact h.symm
  · rfl

theorem successIssues_panic_middle (pre post : List (LinterConfig × LinterOutcome))
    (a : LinterConfig) (msg : String) :
    successIssues (pre ++ (a, LinterOutcome.panics msg) :: post) =
      successIssues pre ++ successIssues post := by
  unfold successIssues
  simp [runLinterSafe]

/-- C3.  Fault isolation in the orchestrator: when one task panics in the
middle of a run, its fault is converted into a per-task error joined into
the aggregate error at its position, every other task still contributes
(errors of the surrounding tasks stay, and the issues of every succeeding
task are still fed through the pipeline), and with an empty stage list the
survivors appear verbatim in the returned result. -/
theorem runner_fault_isolation (procs : List Processor)
    (pre post : List (LinterConfig × LinterOutcome)) (a : LinterConfig) (msg : String) :
    (runnerRun procs (pre ++ (a, LinterOutcome.panics msg) :: post)).2 =
      lintErrorsOf pre ++ (a.name, LinterError.panicked msg) :: lintErrorsOf post ∧
    (a.name, LinterError.panicked msg) ∈
      (runnerRun procs (pre ++ (a, LinterOutcome.panics msg) :: post)).2 ∧
    (runnerRun procs (pre ++ (a, LinterOutcome.panics msg) :: post)).1 =
      processLintResults procs (successIssues pre ++ successIssues post) ∧
    (runnerRun [] (pre ++ (a, LinterOutcome.panics msg) :: post)).1 =
      successIssues pre ++ successIssues post := by
  have herr : lintErrorsOf (pre ++ (a, LinterOutcome.panics msg) :: post) =
      lintErrorsOf pre ++ (a.name, LinterError.panicked msg) :: lintErrorsOf post := by
    unfold lintErrorsOf
    simp [runLinterSafe]
  refine ⟨?_, ?_, ?_, ?_⟩
  · rw [runnerRun, runnerCollect_eq]
    exact herr
  · rw [runnerRun, runnerCollect_eq]
    simp [herr]
  · rw [runnerRun, runnerCollect_eq, successIssues_panic_middle]
  · rw [runnerRun, runnerCollect_eq, successIssues_panic_middle,
      processLintResults_nil_procs]

theorem processIssues_cons (p : Processor) (rest : List Processor)
    (issues : List Issue) :
    processIssues (p :: rest) issues =
      match p.process issues with
      | .ok newIssues => processIssues rest newIssues
      | .error _ => processIssues rest issues := rfl

/-- C4.  A pipeline stage whose process call fails acts as the identity: the
stage after it receives exactly the diagnostics the failing stage received,
wherever the failing stage sits in the stage list. -/
theorem stage_error_passthrough (pre post : List Processor) (p : Processor)
    (issues : List Issue) (e : String)
    (h : p.process (processIssues pre issues) = .error e) :
    processIssues (pre ++ p :: post) issues = processIssues (pre ++ post) issues := by
  induction pre generalizing issues with
  | nil =>
    have h2 : p.process issues = Except.error e := h
    simp only [List.nil_append, processIssues_cons, h2]
  | cons q pre ih =>
    simp only [List.cons_append, processIssues_cons]
    cases hq : q.process issues with
    | ok newIssues =>
      apply ih
      have h2 : processIssues (q :: pre) issues = processIssues pre newIssues := by
        simp only [processIssues_cons, hq]
      rw [h2] at h
      exact h
    | error e2 =>
      apply ih
      have h2 : processIssues (q :: pre) issues = processIssues pre issues := by
        simp only [processIssues_cons, hq]
      rw [h2] at h
      exact h

/-- Witness for C4: a concretely failing stage in front of a drop-all stage
leaves the input for the drop-all stage unchanged. -/
theorem stage_error_passthrough_witness :
    failingStage.process (processIssues [] [issueEx]) = .error "boom" ∧
    processIssues ([] ++ failingStage :: [dropAllStage]) [issueEx] =
      processIssues ([] ++ [dropAllStage]) [issueEx] :=
  ⟨rfl, stage_error_passthrough [] [dropAllStage] failingStage [issueEx] "boom" rfl⟩

theorem mem_stampIssues_ne_empty {lc : LinterConfig} {issues : List Issue} {i : Issue}
    (hname : lc.name ≠ "") (h : i ∈ stampIssues lc issues) : i.fromLinter ≠ "" := by
  unfold stampIssues at h
  rcases List.mem_map.mp h with ⟨j, _, rfl⟩
  by_cases hj : j.fromLinter = "" <;> simp [hj, hname]

/-- C6.  Source-task stamping: a successful task run returns exactly its
issues with every empty FromLinter field replaced by the task id, and when
every executed task has a non-empty id, every diagnostic the orchestrator
accumulates for the pipeline carries a non-empty source-task id; the runner
hands exactly this accumulated sequence to the pipeline. -/
theorem stamping_invariant (lc : LinterConfig) (issues0 : List Issue)
    (linters : List (LinterConfig × LinterOutcome)) (procs : List Processor) :
    (runLinterSafe lc (LinterOutcome.ok issues0) =
      .ok (issues0.map (fun i =>
        if i.fromLinter = "" then { i with fromLinter := lc.name } else i))) ∧
    ((∀ p ∈ linters, p.1.name ≠ "") →
      ∀ i ∈ (runnerCollect linters).1, i.fromLinter ≠ "") ∧
    ((runnerRun procs linters).1 = processLintResults procs (runnerCollect linters).1) := by
  refine ⟨rfl, ?_, rfl⟩
  intro hnames i hi
  rw [runnerCollect_eq] at hi
  simp only [successIssues, List.mem_flatMap] at hi
  rcases hi with ⟨p, hp, hip⟩
  cases hout : runLinterSafe p.1 p.2 with
  | error e => simp [hout] at hip
  | ok is =>
    rw [hout] at hip
    cases hpo : p.2 with
    | panics m2 => rw [hpo] at hout; exact absurd hout (by simp [runLinterSafe])
    | fails m2 => rw [hpo] at hout; exact absurd hout (by simp [runLinterSafe])
    | ok is0 =>
      rw [hpo] at hout
      have hstamp : is = stampIssues p.1 is0 := by
        have := hout
        unfold runLinterSafe at this
        simpa using this.symm
      exact mem_stampIssues_ne_empty (hnames p hp) (hstamp ▸ hip)

/-- Witness for C6: a concrete run whose task leaves FromLinter empty yields
the stamped diagnostic, whose source-task id is non-empty. -/
theorem stamping_invariant_witness :
    (Issue.mk "f.go" 1 "finding" "govet").fromLinter ≠ "" :=
  (stamping_invariant govetCfg [] [(govetCfg, LinterOutcome.ok [⟨"f.go", 1, "finding", ""⟩])]
    []).2.1 (by decide) ⟨"f.go", 1, "finding", "govet"⟩ (by decide)

/-! Helper lemmas about the generated-file classifier. -/

theorem getDocLines_append_stop {pre : List String} {nd : String} (suf : List String)
    (hpre : ∀ l ∈ pre, isDocScanLine l = true) (hnd : isDocScanLine nd = false) :
    getDocLines (pre ++ nd :: suf) = getDocLines pre := by
  induction pre with
  | nil =>
    simp only [List.nil_append]
    unfold isDocScanLine at hnd
    simp only [Bool.or_eq_false_iff] at hnd
    unfold getDocLines
    rw [if_neg (by simp [hnd.1.1]), if_neg (by
      rintro (h | h)
      · exact of_decide_eq_false hnd.1.2 h
      · rw [hnd.2] at h
        cases h)]
  | cons l pre ih =>
    have hl := hpre l (List.mem_cons_self l pre)
    have hrest := fun l2 hm => hpre l2 (List.mem_cons_of_mem l hm)
    unfold isDocScanLine at hl
    simp only [Bool.or_eq_true] at hl
    simp only [List.cons_append]
    unfold getDocLines
    by_cases hc : strStartsWith (strTrim l) "//" = true
    · rw [if_pos hc, if_pos hc, ih hrest]
    · have hbp : strTrim l = "" ∨ strStartsWith (strTrim l) "package" = true := by
        rcases hl with (h | h) | h
        · exact absurd h hc
        · exact Or.inl (of_decide_eq_true h)
        · exact Or.inr h
      rw [if_neg hc, if_neg hc, if_pos hbp, if_pos hbp, ih hrest]

/-- C7.  The generated-file classifier reads exactly the leading block of
blank, comment and package lines (the scan result is unchanged by whatever
follows the first other line), classifies generated exactly when that block
contains a marker phrase case-insensitively, in particular any-case
"do not edit" in the leading block forces the generated classification, and
a marker appearing only after the leading block never does. -/
theorem generated_classification (pre suf : List String) (nd : String) (doc : String) :
    ((∀ l ∈ pre, isDocScanLine l = true) → isDocScanLine nd = false →
      getDoc (pre ++ nd :: suf) = getDoc pre) ∧
    (isGeneratedFileByComment doc = true ↔
      ∃ mk ∈ generatedMarkers, strContains (strToLower doc) mk = true) ∧
    ((∀ l ∈ pre, isDocScanLine l = true) → isDocScanLine nd = false →
      strContains (strToLower (getDoc pre)) "do not edit" = true →
      isGeneratedFile (pre ++ nd :: suf) = true) ∧
    ((∀ l ∈ pre, isDocScanLine l = true) → isDocScanLine nd = false →
      (∀ mk ∈ generatedMarkers, strContains (strToLower (getDoc pre)) mk = false) →
      isGeneratedFile (pre ++ nd :: suf) = false) := by
  have hmarks : ∀ d : String, isGeneratedFileByComment d = true ↔
      ∃ mk ∈ generatedMarkers, strContains (strToLower d) mk = true := by
    intro d
    unfold isGeneratedFileByComment
    rw [List.any_eq_true]
  have hgd : (∀ l ∈ pre, isDocScanLine l = true) → isDocScanLine nd = false →
      getDoc (pre ++ nd :: suf) = getDoc pre := by
    intro hpre hnd
    unfold getDoc
    rw [getDocLines_append_stop suf hpre hnd]
  refine ⟨hgd, hmarks doc, ?_, ?_⟩
  · intro hpre hnd hmk
    unfold isGeneratedFile
    rw [hgd hpre hnd]
    exact (hmarks _).mpr ⟨"do not edit", by simp [generatedMarkers], hmk⟩
  · intro hpre hnd hnone
    unfold isGeneratedFile
    rw [hgd hpre hnd, Bool.eq_false_iff]
    intro hgen
    rcases (hmarks _).mp hgen with ⟨mk, hmem, hcon⟩
    have h2 := hnone mk hmem
    rw [hcon] at h2
    cases h2

/-- Witness for C7: a file whose leading comment carries the any-case marker
is classified generated, and a file where the marker appears only after the
leading block is not. -/
theorem generated_classification_witness :
    isGeneratedFile ["// Code generated by tool; DO NOT EDIT.", "func f() int"] = true ∧
    isGeneratedFile ["package foo", "func f() int", "// DO NOT EDIT"] = false :=
  ⟨(generated_classification ["// Code generated by tool; DO NOT EDIT."] []
      "func f() int" "").2.2.1 (by decide) (by decide) (by decide),
   (generated_classification ["package foo"] ["// DO NOT EDIT"]
      "func f() int" "").2.2.2 (by decide) (by decide) (by decide)⟩

/-! C8: the autogenerated-exclusion stage versus user include rules. -/

theorem filterIssuesErr_nil {σ : Type} (f : σ → Issue → σ × Except String Bool)
    (s : σ) : filterIssuesErr f s [] = (s, .ok []) := rfl

theorem filterIssuesErr_cons {σ : Type} (f : σ → Issue → σ × Except String Bool)
    (s : σ) (i : Issue) (rest : List Issue) :
    filterIssuesErr f s (i :: rest) =
      match f s i with
      | (s1, .error e) => (s1, .error e)
      | (s1, .ok keep) =>
        match filterIssuesErr f s1 rest with
        | (s2, .error e) => (s2, .error e)
        | (s2, .ok out) => (s2, .ok (if keep then i :: out else out)) := rfl

theorem agShouldPass_generated {fsys : FileSystem} {cache : AgeCache} {i : Issue}
    {lines : List String}
    (h1 : i.fromLinter ≠ "typecheck") (h2 : i.filePath ≠ "")
    (hc : cache i.filePath = none)
    (h3 : fsys i.filePath = .ok lines) (h4 : isGeneratedFile lines = true) :
    (agShouldPassIssue fsys cache i).2 = .ok false := by
  by_cases hsp : isSpecialAutogeneratedFile i.filePath = true
  · simp [agShouldPassIssue, h1, hsp]
  · simp [agShouldPassIssue, getOrCreateFileSummary, h1, h2, hsp, hc, h3, h4]

theorem autogenProcess_single_drop {fsys : FileSystem} {i : Issue}
    (hpass : (agShouldPassIssue fsys (fun _ => none) i).2 = .ok false) :
    autogenProcess fsys [i] = .ok [] := by
  unfold autogenProcess
  rw [filterIssuesErr_cons]
  rcases hres : agShouldPassIssue fsys (fun _ => none) i with ⟨c, r⟩
  rw [hres] at hpass
  simp only at hpass
  rw [hpass]
  simp [filterIssuesErr_nil]

theorem processIssues_filtering_nil (rest : List Processor)
    (h5 : ∀ p ∈ rest, ∀ input out, p.process input = .ok out → ∀ j ∈ out, j ∈ input) :
    processIssues rest [] = [] := by
  induction rest with
  | nil => rfl
  | cons p ps ih =>
    rw [processIssues_cons]
    cases hp : p.process [] with
    | error e => exact ih (fun q hq => h5 q (List.mem_cons_of_mem p hq))
    | ok out =>
      have hout : out = [] := by
        rcases out with _ | ⟨j, out2⟩
        · rfl
        · have hj := h5 p (List.mem_cons_self p ps) [] (j :: out2) hp j
            (List.mem_cons_self j out2)
          cases hj
      rw [hout]
      exact ih (fun q hq => h5 q (List.mem_cons_of_mem p hq))

/-- Counterexample to C8 as stated: the concrete scenario of the spec.  The
fixture file zz_generated.go carries the any-case generated marker and an
issue is reported on line 5; even with the most favorable include-path
override stage downstream (one that retains every diagnostic it receives),
the diagnostic is NOT retained: the pipeline output is empty. -/
theorem autogen_include_counterexample :
    isGeneratedFile ["// Code generated by tool; DO NOT EDIT.", "package foo",
      "func f() int"] = true ∧
    issueEx.filePath = "zz_generated.go" ∧ issueEx.line = 5 ∧
    processIssues [autogenProcessor fsysEx, includeOverrideStage] [issueEx] = [] ∧
    issueEx ∉ processIssues [autogenProcessor fsysEx, includeOverrideStage] [issueEx] := by
  refine ⟨by decide, rfl, rfl, by decide, by decide⟩

/-- C8 amended.  A diagnostic of a generated-classified file (other than a
compile-check diagnostic) is dropped by the autogenerated-exclusion stage
and stays dropped: no downstream stage that only filters can retain it, so
an include-pattern rule does not beat generated-file suppression; with no
include override it is likewise dropped. -/
theorem autogen_drop_is_final (fsys : FileSystem) (i : Issue) (lines : List String)
    (rest : List Processor)
    (h1 : i.fromLinter ≠ "typecheck") (h2 : i.filePath ≠ "")
    (h3 : fsys i.filePath = .ok lines) (h4 : isGeneratedFile lines = true)
    (h5 : ∀ p ∈ rest, ∀ input out, p.process input = .ok out → ∀ j ∈ out, j ∈ input) :
    processIssues (autogenProcessor fsys :: rest) [i] = [] := by
  have hpass := @agShouldPass_generated fsys (fun _ => none) i lines h1 h2 rfl h3 h4
  have hproc := autogenProcess_single_drop hpass
  rw [processIssues_cons]
  have hps : (autogenProcessor fsys).process [i] = .ok [] := hproc
  rw [hps]
  exact processIssues_filtering_nil rest h5

/-- Witness for the amended C8 at the concrete scenario. -/
theorem autogen_drop_is_final_witness :
    processIssues (autogenProcessor fsysEx :: [includeOverrideStage]) [issueEx] = [] := by
  apply autogen_drop_is_final fsysEx issueEx
    ["// Code generated by tool; DO NOT EDIT.", "package foo", "func f() int"]
    [includeOverrideStage] (by decide) (by decide) rfl (by decide)
  intro p hp input out hout j hj
  rcases List.mem_singleton.mp hp with rfl
  have hio : Except.ok input = Except.ok out := hout
  injection hio with hio2
  rw [← hio2] at hj
  exact hj

/-! C9: the skip-dirs stage never drops diagnostics of explicitly given
directories. -/

theorem filterIssuesState_cons {σ : Type} (f : σ → Issue → σ × Bool) (s : σ)
    (i : Issue) (rest : List Issue) :
    filterIssuesState f s (i :: rest) =
      match f s i with
      | (s1, keep) =>
        match filterIssuesState f s1 rest with
        | (s2, out) => (s2, if keep then i :: out else out) := rfl

theorem sdShouldPassIssue_spec (abs : String → String) (env : SkipDirsEnv)
    (cache : String → Option Bool) (j : Issue)
    (hc : ∀ d b, cache d = some b → sdShouldPassIssueDirs env d (abs d) = b) :
    (∀ d b, (sdShouldPassIssue abs env cache j).1 d = some b →
      sdShouldPassIssueDirs env d (abs d) = b) ∧
    ((isAbsPath j.filePath = true ∨
        sdShouldPassIssueDirs env (filepathDir j.filePath)
          (abs (filepathDir j.filePath)) = true) →
      (sdShouldPassIssue abs env cache j).2 = true) := by
  by_cases habs : isAbsPath j.filePath = true
  · have hval : sdShouldPassIssue abs env cache j = (cache, true) := by
      unfold sdShouldPassIssue
      rw [if_pos habs]
    rw [hval]
    exact ⟨hc, fun _ => rfl⟩
  · rcases hcd : cache (filepathDir j.filePath) with _ | b
    · have hval : sdShouldPassIssue abs env cache j =
          (fun d => if d = filepathDir j.filePath
            then some (sdShouldPassIssueDirs env (filepathDir j.filePath)
              (abs (filepathDir j.filePath)))
            else cache d,
           sdShouldPassIssueDirs env (filepathDir j.filePath)
             (abs (filepathDir j.filePath))) := by
        unfold sdShouldPassIssue
        rw [if_neg habs]
        simp only [hcd]
      rw [hval]
      constructor
      · intro d b hd
        simp only at hd
        by_cases hdd : d = filepathDir j.filePath
        · subst hdd
          simpa using hd
        · rw [if_neg hdd] at hd
          exact hc d b hd
      · intro hp
        rcases hp with hp | hp
        · exact absurd hp habs
        · exact hp
    · have hval : sdShouldPassIssue abs env cache j = (cache, b) := by
        unfold sdShouldPassIssue
        rw [if_neg habs]
        simp only [hcd]
      rw [hval]
      refine ⟨hc, ?_⟩
      intro hp
      rcases hp with hp | hp
      · exact absurd hp habs
      · have hb := hc _ b hcd
        rw [hp] at hb
        exact hb.symm

theorem sd_filter_keeps (abs : String → String) (env : SkipDirsEnv)
    (cache : String → Option Bool) (issues : List Issue) (i : Issue)
    (hc : ∀ d b, cache d = some b → sdShouldPassIssueDirs env d (abs d) = b)
    (hmem : i ∈ issues)
    (hpass : isAbsPath i.filePath = true ∨
      sdShouldPassIssueDirs env (filepathDir i.filePath)
        (abs (filepathDir i.filePath)) = true) :
    i ∈ (filterIssuesState (sdShouldPassIssue abs env) cache issues).2 := by
  induction issues generalizing cache with
  | nil => cases hmem
  | cons j rest ih =>
    rw [filterIssuesState_cons]
    have hspec := sdShouldPassIssue_spec abs env cache j hc
    rcases hj : sdShouldPassIssue abs env cache j with ⟨c1, keep⟩
    have hc1 : ∀ d b, c1 d = some b → sdShouldPassIssueDirs env d (abs d) = b := by
      intro d b hd
      apply hspec.1 d b
      rw [hj]
      exact hd
    rcases List.mem_cons.mp hmem with rfl | hmem2
    · have hkeep : keep = true := by
        have h2 := hspec.2 hpass
        rw [hj] at h2
        exact h2
      rcases hfs : filterIssuesState (sdShouldPassIssue abs env) c1 rest with ⟨c2, out⟩
      simp [hfs, hkeep]
    · have hrec := ih c1 hc1 hmem2
      rcases hfs : filterIssuesState (sdShouldPassIssue abs env) c1 rest with ⟨c2, out⟩
      rw [hfs] at hrec
      simp only at hrec
      cases keep
      · simpa [hfs] using hrec
      · simp [hfs]
        exact Or.inr hrec

/-- C9.  The directory-exclusion stage never drops a diagnostic whose
directory, after absolutization, equals one of the (absolutized) analysis
arguments the user explicitly passed, even when a skip pattern matches. -/
theorem skip_dirs_explicit_args (abs : String → String)
    (patterns : List (String → Bool)) (runArgs : List String)
    (wpp : String → String) (issues : List Issue) (i : Issue)
    (hmem : i ∈ issues)
    (hdir : abs (filepathDir i.filePath) ∈
      (mkSkipDirsEnv abs patterns runArgs wpp).absArgsDirs) :
    i ∈ (skipDirsProcess abs (mkSkipDirsEnv abs patterns runArgs wpp)
      (fun _ => none) issues).2 := by
  unfold skipDirsProcess
  by_cases hp : (mkSkipDirsEnv abs patterns runArgs wpp).patterns.isEmpty = true
  · rw [if_pos hp]
    exact hmem
  · rw [if_neg hp]
    apply sd_filter_keeps
    · intro d b hd
      cases hd
    · exact hmem
    · right
      unfold sdShouldPassIssueDirs
      rw [if_pos (by simpa using hdir)]

/-- Witness for C9: a pattern matching every directory does not drop the
diagnostic of the explicitly passed directory pkg/foo. -/
theorem skip_dirs_explicit_args_witness :
    sdIssueEx ∈ (skipDirsProcess absEx (mkSkipDirsEnv absEx [fun _ => true]
      ["pkg/foo"] (fun s2 => s2)) (fun _ => none) [sdIssueEx]).2 :=
  skip_dirs_explicit_args absEx [fun _ => true] ["pkg/foo"] (fun s2 => s2)
    [sdIssueEx] sdIssueEx (by decide) (by decide)

/-! C10: the failed-read memoization of the autogenerated-exclusion stage. -/

theorem getOrCreate_error_cache {fsys : FileSystem} {cache : AgeCache} {i : Issue}
    {c : AgeCache} {e : String}
    (hc : cache i.filePath = none)
    (hg : getOrCreateFileSummary fsys cache i = (c, .error e)) :
    c i.filePath = some ⟨false⟩ ∧
    ∀ d, d ≠ i.filePath → c d = cache d := by
  unfold getOrCreateFileSummary at hg
  rw [hc] at hg
  by_cases hemp : i.filePath = ""
  · rw [if_pos hemp] at hg
    injection hg with hg1 _
    rw [← hg1]
    exact ⟨by simp, fun d hd => by simp [hd]⟩
  · rw [if_neg hemp] at hg
    rcases hf : fsys i.filePath with e2 | lines
    · rw [hf] at hg
      injection hg with hg1 _
      rw [← hg1]
      exact ⟨by simp, fun d hd => by simp [hd]⟩
    · rw [hf] at hg
      simp only at hg
      injection hg with _ hg2
      cases hg2

/-- C10.  In the autogenerated-exclusion stage the cache entry is created
(as the zero-value summary) before the file is read, so after a first
diagnostic whose read or classification fails, the failing path is memoized
as not generated: every later diagnostic of the same path is passed by the
stage predicate with no error, and the cache is left unchanged. -/
theorem autogen_failed_read_memoization (fsys : FileSystem) (cache : AgeCache)
    (i j : Issue) (e : String)
    (hc : cache i.filePath = none)
    (herr : (agShouldPassIssue fsys cache i).2 = .error e)
    (hj : j.filePath = i.filePath) :
    (agShouldPassIssue fsys cache i).1 i.filePath = some ⟨false⟩ ∧
    (agShouldPassIssue fsys (agShouldPassIssue fsys cache i).1 j).2 = .ok true ∧
    (agShouldPassIssue fsys (agShouldPassIssue fsys cache i).1 j).1 =
      (agShouldPassIssue fsys cache i).1 := by
  by_cases ht : i.fromLinter = "typecheck"
  · rw [show (agShouldPassIssue fsys cache i).2 = .ok true by
      simp [agShouldPassIssue, ht]] at herr
    cases herr
  by_cases hs : isSpecialAutogeneratedFile i.filePath = true
  · rw [show (agShouldPassIssue fsys cache i).2 = .ok false by
      simp [agShouldPassIssue, ht, hs]] at herr
    cases herr
  have hshape : agShouldPassIssue fsys cache i =
      match getOrCreateFileSummary fsys cache i with
      | (c, .error e2) => (c, .error e2)
      | (c, .ok fs) => (c, .ok (!fs.isGenerated)) := by
    unfold agShouldPassIssue
    rw [if_neg ht, if_neg hs]
  rcases hg : getOrCreateFileSummary fsys cache i with ⟨c, r⟩
  rcases r with e2 | fs
  · have hci : agShouldPassIssue fsys cache i = (c, .error e2) := by
      rw [hshape, hg]
    have hmemo := getOrCreate_error_cache hc hg
    have hcf : (agShouldPassIssue fsys cache i).1 = c := by rw [hci]
    refine ⟨by rw [hcf]; exact hmemo.1, ?_, ?_⟩
    · by_cases htj : j.fromLinter = "typecheck"
      · simp [agShouldPassIssue, htj]
      · have hhit : getOrCreateFileSummary fsys c j = (c, .ok ⟨false⟩) := by
          unfold getOrCreateFileSummary
          rw [hj, hmemo.1]
        rw [hcf]
        unfold agShouldPassIssue
        rw [if_neg htj, if_neg (by rw [hj]; exact hs), hhit]
        rfl
    · by_cases htj : j.fromLinter = "typecheck"
      · simp [agShouldPassIssue, htj]
      · have hhit : getOrCreateFileSummary fsys c j = (c, .ok ⟨false⟩) := by
          unfold getOrCreateFileSummary
          rw [hj, hmemo.1]
        rw [hcf]
        unfold agShouldPassIssue
        rw [if_neg htj, if_neg (by rw [hj]; exact hs), hhit]
  · have hci : agShouldPassIssue fsys cache i = (c, .ok (!fs.isGenerated)) := by
      rw [hshape, hg]
    rw [hci] at herr
    cases herr

/-- Witness for C10: after a failing read for gen.go, a second diagnostic of
gen.go passes with no error and the cache is unchanged. -/
theorem autogen_failed_read_memoization_witness :
    (agShouldPassIssue fsysBad (fun _ => none)
        ⟨"gen.go", 1, "first", "lintA"⟩).1 "gen.go" = some ⟨false⟩ ∧
    (agShouldPassIssue fsysBad
        (agShouldPassIssue fsysBad (fun _ => none) ⟨"gen.go", 1, "first", "lintA"⟩).1
        ⟨"gen.go", 2, "second", "lintB"⟩).2 = .ok true ∧
    (agShouldPassIssue fsysBad
        (agShouldPassIssue fsysBad (fun _ => none) ⟨"gen.go", 1, "first", "lintA"⟩).1
        ⟨"gen.go", 2, "second", "lintB"⟩).1 =
      (agShouldPassIssue fsysBad (fun _ => none) ⟨"gen.go", 1, "first", "lintA"⟩).1 :=
  autogen_failed_read_memoization fsysBad (fun _ => none)
    ⟨"gen.go", 1, "first", "lintA"⟩ ⟨"gen.go", 2, "second", "lintB"⟩ "read failed"
    rfl rfl rfl

end GoLint
